import Mathlib

/-!
Verification development for the multi-feed infinite scroll engine
(`src/web/src/infiniscroll.rs`).

The engine state and its operations are shallowly embedded below.  The
translation conventions used throughout:

* `Id` (the source's opaque totally ordered identifier, obtained from
  `Entry::time()`) is embedded as `Int`.
* An `Entry` carries its id together with the fixed height of the element
  produced by `create_el` (heights are DOM measurements; they are modelled
  exactly, as rationals).
* `VecDeque` becomes `List` with `front = head`, `back = getLast`.
* `HashMap<FeedId, FeedState>` becomes an association list
  `List (Nat × FeedState)`; iteration order of the map is the list order.
* `HashSet<Id>` becomes a duplicate-free `List Int` with set-style
  insert/erase.
* Operations that can panic in Rust (failed `assert!`, `unwrap()` of a
  `None`) return `Option _`, with `none` modelling the panic.
* Calls to the feeds (`request_around` / `request_before` /
  `request_after`) are collected in a returned list of `FeedRequest`s.
* DOM-only effects (spinner classes, style updates, scroll mutation,
  timers) have no logical content and are dropped; the geometric part of
  `shake_immediate` that the claims refer to (phase 3 realize-to-fill and
  phase 5 prune-and-request) is embedded with the measured pixel values as
  explicit rational inputs.
-/

/-- An atom supplied by a feed: its totally ordered id (the source's
`Entry::time()`) and the measured height of its rendered element. -/
structure Entry where
  time : Int
  height : Rat
deriving DecidableEq

/-- `EntryState` from the source: a realized (or sticky-held) entry,
remembering which feed produced it. -/
structure EntryState where
  feed_id : Nat
  entry : Entry
deriving DecidableEq

/-- Per-feed state owned by the engine (`FeedState` in the source).
`early_reserve` front (= list head) is nearest to the realized window and
runs late to early; `late_reserve` front is nearest to the realized window
and runs early to late. -/
structure FeedState where
  initial : Bool
  early_reserve : List Entry
  late_reserve : List Entry
  early_stop : Bool
  late_stop : Bool
  latest_known : Option Int
  earliest_known : Option Int
deriving DecidableEq

/-- The engine state (`Infiniscroll_` in the source), restricted to its
logical fields.  DOM elements, cached pixel values and timers are omitted;
the realized list keeps entry identity, which is all the claims consult. -/
structure Infiniscroll where
  reset_time : Int
  feeds : List (Nat × FeedState)
  sticky_set : List Int
  early_sticky : List EntryState
  late_sticky : List EntryState
  real : List EntryState
  anchor_i : Option Nat
  anchor_alignment : Rat
  anchor_offset : Rat
deriving DecidableEq

/-- A request issued by the engine to one feed. -/
inductive FeedRequest where
  | around (pivot : Int) (count : Nat)
  | before (pivot : Int) (count : Nat)
  | after (pivot : Int) (count : Nat)
deriving DecidableEq

def REQUEST_COUNT : Nat := 50

def MIN_RESERVE : Nat := 50

def MAX_RESERVE : Nat := MIN_RESERVE + 2 * REQUEST_COUNT

/-- Insert at index `i` (Rust `Vec::insert` / container `splice(i,0,[a])`). -/
def insertAt : List α → Nat → α → List α
  | l, 0, a => a :: l
  | [], _ + 1, a => [a]
  | x :: l, i + 1, a => x :: insertAt l i a

/-- Remove the element at index `i` (Rust `Vec::remove(i)`). -/
def removeAt : List α → Nat → List α
  | [], _ => []
  | _ :: l, 0 => l
  | x :: l, i + 1 => x :: removeAt l i

/-- Index of the first element satisfying `p`. -/
def firstIdx (p : α → Bool) : List α → Option Nat
  | [] => none
  | a :: l => if p a then some 0 else (firstIdx p l).map (· + 1)

def lastIdxAux (p : α → Bool) : List α → Nat → Option Nat → Option Nat
  | [], _, acc => acc
  | a :: l, i, acc => lastIdxAux p l (i + 1) (if p a then some i else acc)

/-- Index of the last element satisfying `p` (the source's `unsticky` scans
the late holding area without breaking, keeping the last hit). -/
def lastIdx (p : α → Bool) (l : List α) : Option Nat :=
  lastIdxAux p l 0 none

/-- `HashSet::insert`. -/
def setInsert (l : List Int) (a : Int) : List Int :=
  if a ∈ l then l else a :: l

/-- `HashSet::remove`. -/
def setErase (l : List Int) (a : Int) : List Int :=
  l.filter (fun b => b ≠ a)

/-- `HashMap::get` on the feed map. -/
def lookupFeed : List (Nat × FeedState) → Nat → Option FeedState
  | [], _ => none
  | p :: rest, feed_id => if p.1 = feed_id then some p.2 else lookupFeed rest feed_id

/-- Writing back a mutated feed state (`HashMap::get_mut`). -/
def updateFeed (feeds : List (Nat × FeedState)) (feed_id : Nat) (f : FeedState) :
    List (Nat × FeedState) :=
  feeds.map (fun p => if p.1 = feed_id then (p.1, f) else p)

/-- `FeedState::update_earliest_known`. -/
def FeedState.update_earliest_known (f : FeedState) (time : Int) : FeedState :=
  match f.earliest_known with
  | some i => if time < i then { f with earliest_known := some time } else f
  | none => { f with earliest_known := some time }

/-- `FeedState::update_latest_known`; the boolean reports whether the value
advanced. -/
def FeedState.update_latest_known (f : FeedState) (time : Int) : FeedState × Bool :=
  match f.latest_known with
  | some i =>
    if time > i then ({ f with latest_known := some time }, true) else (f, false)
  | none => ({ f with latest_known := some time }, true)

/-- `get_pivot_early`: back of the early reserve, else the earliest realized
entry of this feed, else the front of the late reserve. -/
def get_pivot_early (entries : List EntryState) (feed_id : Nat) (f_state : FeedState) :
    Option Int :=
  match f_state.early_reserve.getLast? with
  | some e => some e.time
  | none =>
    match (entries.filter (fun e => e.feed_id == feed_id)).head? with
    | some e => some e.entry.time
    | none => f_state.late_reserve.head?.map (fun e => e.time)

/-- `get_pivot_late`: back of the late reserve, else the latest realized
entry of this feed, else the front of the early reserve. -/
def get_pivot_late (entries : List EntryState) (feed_id : Nat) (f_state : FeedState) :
    Option Int :=
  match f_state.late_reserve.getLast? with
  | some e => some e.time
  | none =>
    match (entries.reverse.filter (fun e => e.feed_id == feed_id)).head? with
    | some e => some e.entry.time
    | none => f_state.early_reserve.head?.map (fun e => e.time)

/-- The sanity `assert!` of `respond_entries_before`: entries must descend
strictly, starting strictly below the pivot. -/
def checkDesc (a : Int) : List Entry → Bool
  | [] => true
  | e :: rest => if e.time ≥ a then false else checkDesc e.time rest

/-- The sanity `assert!` of `respond_entries_after`: entries must ascend
strictly, starting strictly above the pivot. -/
def checkAsc (a : Int) : List Entry → Bool
  | [] => true
  | e :: rest => if e.time ≤ a then false else checkAsc e.time rest

/-- `respond_entries_before` (state mutation part; the trailing `shake` is a
separate reconciliation pass).  `none` models a panic. -/
def respond_entries_before (s : Infiniscroll) (feed_id : Nat) (initial_pivot : Int)
    (entries : List Entry) (stop : Bool) : Option Infiniscroll :=
  if entries.isEmpty then some s
  else if checkDesc initial_pivot entries = false then none
  else
    match lookupFeed s.feeds feed_id with
    | none => none
    | some f_state0 =>
      match get_pivot_early s.real feed_id f_state0 with
      | none => some s
      | some current_pivot =>
        if initial_pivot ≠ current_pivot then some s
        else
          match f_state0.earliest_known with
          | none => none
          | some earliest_known =>
            let stop1 :=
              if initial_pivot ≠ earliest_known ∧ ∀ e ∈ entries, e.time ≠ earliest_known
              then false else stop
            match entries.getLast? with
            | none => none
            | some last =>
              let f_state1 := f_state0.update_earliest_known last.time
              let prepend_sticky :=
                (entries.reverse.filter (fun e => decide (e.time ∈ s.sticky_set))).map
                  (fun e => EntryState.mk feed_id e)
              let f_state2 :=
                { f_state1 with
                  early_reserve := f_state1.early_reserve ++ entries,
                  early_stop := stop1 }
              some { s with
                feeds := updateFeed s.feeds feed_id f_state2,
                early_sticky := prepend_sticky ++ s.early_sticky }

/-- Ordered insertion into the late sticky holding area (first variant of the
`'sort_insert` block inside `add_to_reserve`). -/
def stickyInsertLate (late_sticky : List EntryState) (r : EntryState) : List EntryState :=
  match firstIdx (fun o => decide (r.entry.time < o.entry.time)) late_sticky with
  | some i => insertAt late_sticky i r
  | none => late_sticky ++ [r]

/-- The `add_to_reserve!` block of `respond_entries_after`: push entries onto
the late reserve while it is below `MAX_RESERVE`; on overflow discard the
rest and clear `stop`.  Returns the new late reserve, new late sticky
holding area, and the possibly cleared `stop`. -/
def add_to_reserve (sticky_set : List Int) (feed_id : Nat) :
    List Entry → List Entry → List EntryState → Bool →
      List Entry × List EntryState × Bool
  | [], late_reserve, late_sticky, stop => (late_reserve, late_sticky, stop)
  | e :: rest, late_reserve, late_sticky, stop =>
    if late_reserve.length < MAX_RESERVE then
      let late_sticky1 :=
        if e.time ∈ sticky_set then stickyInsertLate late_sticky (EntryState.mk feed_id e)
        else late_sticky
      add_to_reserve sticky_set feed_id rest (late_reserve ++ [e]) late_sticky1 stop
    else (late_reserve, late_sticky, false)

def enumFrom (n : Nat) : List α → List (Nat × α)
  | [] => []
  | a :: l => (n, a) :: enumFrom (n + 1) l

def findInsertGo (t : Int) : List (Nat × EntryState) → Nat
  | [] => 0
  | (i, r) :: rest => if t > r.entry.time then i + 1 else findInsertGo t rest

/-- The `'find_insert` scan of `respond_entries_after`: walk the realized
list backwards from the end down to index `k` and insert after the first
entry that is earlier than `t`; fall back to index 0. -/
def findInsert (real : List EntryState) (k : Nat) (t : Int) : Nat :=
  findInsertGo t ((enumFrom 0 real).drop k).reverse

/-- Ordered insertion into the early sticky holding area (second
`'sort_insert` block of `respond_entries_after`; the fallback pushes to the
late holding area, exactly as the source does). -/
def earlyStickyInsert (early_sticky late_sticky : List EntryState) (r : EntryState) :
    List EntryState × List EntryState :=
  match firstIdx (fun o => decide (r.entry.time > o.entry.time)) early_sticky with
  | some i => (insertAt early_sticky i r, late_sticky)
  | none => (early_sticky, late_sticky ++ [r])

/-- The sort-insert loop of `respond_entries_after`: entries earlier than the
realized tail are inserted into the realized list by position, or pushed
onto the front of the early reserve when the position is 0.  Returns the
remaining (not yet placed) entries plus the mutated state pieces; `none`
models the `anchor_i.unwrap()` panic. -/
def sortInsertLoop (sticky_set : List Int) (feed_id : Nat) (real_latest_time : Int) :
    List Entry → Nat → List EntryState → Option Nat → List Entry →
      List EntryState → List EntryState →
      Option (List Entry × List EntryState × Option Nat × List Entry ×
        List EntryState × List EntryState)
  | [], _, real, anchor_i, early_reserve, early_sticky, late_sticky =>
    some ([], real, anchor_i, early_reserve, early_sticky, late_sticky)
  | e :: rest, k, real, anchor_i, early_reserve, early_sticky, late_sticky =>
    if e.time ≥ real_latest_time then
      some (e :: rest, real, anchor_i, early_reserve, early_sticky, late_sticky)
    else
      let i := findInsert real k e.time
      if i = 0 then
        let p :=
          if e.time ∈ sticky_set then
            earlyStickyInsert early_sticky late_sticky (EntryState.mk feed_id e)
          else (early_sticky, late_sticky)
        sortInsertLoop sticky_set feed_id real_latest_time rest i real anchor_i
          (e :: early_reserve) p.1 p.2
      else
        match anchor_i with
        | none => none
        | some a =>
          sortInsertLoop sticky_set feed_id real_latest_time rest i
            (insertAt real i (EntryState.mk feed_id e))
            (some (if i ≤ a then a + 1 else a)) early_reserve early_sticky late_sticky

/-- Appending the remaining entries to the realized list when every feed is
late-stopped with empty late reserve; `none` models the `anchor_i.unwrap()`
panic. -/
def appendRealLoop (feed_id : Nat) :
    List Entry → List EntryState → Option Nat → Option (List EntryState × Option Nat)
  | [], real, anchor_i => some (real, anchor_i)
  | e :: rest, real, anchor_i =>
    match anchor_i with
    | none => none
    | some a =>
      appendRealLoop feed_id rest (real ++ [EntryState.mk feed_id e])
        (some (if a = real.length - 1 then a + 1 else a))

/-- `respond_entries_after` (state mutation part).  Returns the new state and
the feed requests issued synchronously; `none` models a panic. -/
def respond_entries_after (s : Infiniscroll) (feed_id : Nat) (initial_pivot : Int)
    (entries : List Entry) (stop : Bool) :
    Option (Infiniscroll × List (Nat × FeedRequest)) :=
  if entries.isEmpty then some (s, [])
  else if checkAsc initial_pivot entries = false then none
  else
    match lookupFeed s.feeds feed_id with
    | none => none
    | some f_state0 =>
      match get_pivot_late s.real feed_id f_state0 with
      | none => some (s, [])
      | some current_pivot =>
        if initial_pivot ≠ current_pivot then some (s, [])
        else
          let all_stopped := s.feeds.all (fun p => p.2.late_stop)
          let all_reserve_empty := s.feeds.all (fun p => p.2.late_reserve.isEmpty)
          match f_state0.latest_known with
          | none => none
          | some latest_known =>
            let inferred_stop : Bool :=
              if initial_pivot ≠ latest_known ∧ ∀ e ∈ entries, e.time ≠ latest_known
              then false else true
            if f_state0.late_reserve.isEmpty = false then
              let t := add_to_reserve s.sticky_set feed_id entries
                f_state0.late_reserve s.late_sticky stop
              let f_state1 := { f_state0 with late_reserve := t.1, late_stop := t.2.2 }
              some ({ s with
                feeds := updateFeed s.feeds feed_id f_state1,
                late_sticky := t.2.1 }, [])
            else
              match s.real.getLast? with
              | none => none
              | some lastReal =>
                match sortInsertLoop s.sticky_set feed_id lastReal.entry.time entries 0
                    s.real s.anchor_i f_state0.early_reserve s.early_sticky
                    s.late_sticky with
                | none => none
                | some (remaining, real1, anchor1, early_reserve1, early_sticky1,
                    late_sticky1) =>
                  if all_stopped && all_reserve_empty then
                    match appendRealLoop feed_id remaining real1 anchor1 with
                    | none => none
                    | some (real2, anchor2) =>
                      let f_mid := { f_state0 with early_reserve := early_reserve1 }
                      let f_state1 := { f_mid with late_stop := stop }
                      let s1 := { s with
                        feeds := updateFeed s.feeds feed_id f_state1,
                        real := real2, anchor_i := anchor2,
                        early_sticky := early_sticky1, late_sticky := late_sticky1 }
                      if stop && !inferred_stop then
                        match get_pivot_late real2 feed_id f_mid with
                        | none => none
                        | some p =>
                          some (s1, [(feed_id, FeedRequest.after p REQUEST_COUNT)])
                      else some (s1, [])
                  else
                    let t := add_to_reserve s.sticky_set feed_id remaining
                      f_state0.late_reserve late_sticky1 stop
                    let f_state1 := { f_state0 with
                      early_reserve := early_reserve1,
                      late_reserve := t.1, late_stop := t.2.2 }
                    some ({ s with
                      feeds := updateFeed s.feeds feed_id f_state1,
                      real := real1, anchor_i := anchor1,
                      early_sticky := early_sticky1, late_sticky := t.2.1 }, [])

/-- The entry-classification loop of `respond_entries_around`, including the
source's double call to `update_earliest_known` (and no call to
`update_latest_known`). -/
def aroundLoop (reset_time : Int) (feed_id : Nat) :
    List Entry → FeedState → List Entry → List Entry → List EntryState → Option Nat →
      FeedState × List Entry × List Entry × List EntryState × Option Nat
  | [], f, pre, post, real, anchor_i => (f, pre, post, real, anchor_i)
  | e :: rest, f, pre, post, real, anchor_i =>
    let f1 := (f.update_earliest_known e.time).update_earliest_known e.time
    if e.time < reset_time then
      aroundLoop reset_time feed_id rest f1 (pre ++ [e]) post real anchor_i
    else if e.time = reset_time then
      aroundLoop reset_time feed_id rest f1 pre post
        (real ++ [EntryState.mk feed_id e]) (some 0)
    else
      aroundLoop reset_time feed_id rest f1 pre (post ++ [e]) real anchor_i

/-- `respond_entries_around` (state mutation part); `none` models a panic. -/
def respond_entries_around (s : Infiniscroll) (feed_id : Nat) (pivot : Int)
    (entries : List Entry) (early_stop late_stop : Bool) : Option Infiniscroll :=
  if pivot ≠ s.reset_time then some s
  else
    match lookupFeed s.feeds feed_id with
    | none => none
    | some f_state0 =>
      if f_state0.initial = false then some s
      else
        match aroundLoop s.reset_time feed_id entries { f_state0 with initial := false }
            [] [] s.real s.anchor_i with
        | (f1, prepend, postpend, real1, anchor1) =>
          let early_sticky1 :=
            s.early_sticky ++
              (prepend.filter (fun e => decide (e.time ∈ s.sticky_set))).map
                (fun e => EntryState.mk feed_id e)
          let late_sticky1 :=
            s.late_sticky ++
              (postpend.filter (fun e => decide (e.time ∈ s.sticky_set))).map
                (fun e => EntryState.mk feed_id e)
          let f2 := { f1 with
            early_reserve := f1.early_reserve ++ prepend.reverse,
            late_reserve := f1.late_reserve ++ postpend,
            early_stop := early_stop, late_stop := late_stop }
          some { s with
            feeds := updateFeed s.feeds feed_id f2,
            real := real1, anchor_i := anchor1,
            early_sticky := early_sticky1, late_sticky := late_sticky1 }

/-- `notify_entry_after`; `none` models a panic (unknown feed id, or a missing
pivot for the synchronous `request_after`). -/
def notify_entry_after (s : Infiniscroll) (feed_id : Nat) (entry_id : Int) :
    Option (Infiniscroll × List (Nat × FeedRequest)) :=
  match lookupFeed s.feeds feed_id with
  | none => none
  | some f0 =>
    let t := f0.update_latest_known entry_id
    let s1 := { s with feeds := updateFeed s.feeds feed_id t.1 }
    if t.2 && t.1.late_stop then
      match get_pivot_late s.real feed_id t.1 with
      | none => none
      | some p => some (s1, [(feed_id, FeedRequest.after p REQUEST_COUNT)])
    else some (s1, [])

/-- Outcome of `jump`'s scan over the realized list: an exact id match at
index `i`, a first strictly greater id at index `i`, or neither. -/
inductive JumpScan where
  | found (i : Nat)
  | gt (i : Nat)
  | none'
deriving DecidableEq

/-- The scan loop of `jump` over the realized list. -/
def jumpScan (time : Int) : List EntryState → Nat → JumpScan
  | [], _ => .none'
  | e :: rest, i =>
    if e.entry.time = time then .found i
    else if e.entry.time > time then .gt i
    else jumpScan time rest (i + 1)

/-- The per-feed reset performed by `jump` when it cannot find a nearby
realized entry. -/
def resetFeed (f : FeedState) : FeedState :=
  { f with
    early_reserve := [], late_reserve := [], early_stop := false,
    late_stop := false, initial := true, earliest_known := none, latest_known := none }

/-- The full reset branch of `jump`. -/
def jumpReset (s : Infiniscroll) (time : Int) : Infiniscroll :=
  { s with
    reset_time := time, real := [], anchor_i := none,
    anchor_alignment := 1 / 2, anchor_offset := 0,
    early_sticky := [], late_sticky := [],
    feeds := s.feeds.map (fun p => (p.1, resetFeed p.2)) }

/-- `jump` (state mutation part; in the source it is always followed by
`shake_immediate`, whose refill phase is `refillStep` below). -/
def jump (s : Infiniscroll) (time : Int) : Infiniscroll :=
  match jumpScan time s.real 0 with
  | .found i => { s with anchor_i := some i, anchor_alignment := 1 / 2, anchor_offset := 0 }
  | .gt 0 => jumpReset s time
  | .gt (i + 1) =>
    { s with anchor_i := some (i + 1), anchor_alignment := 1 / 2, anchor_offset := 0 }
  | .none' => jumpReset s time

/-- `sticky` (state mutation part); `none` models the panic on an unknown
feed id. -/
def sticky (s0 : Infiniscroll) (feed_id : Nat) (id : Int) : Option Infiniscroll :=
  let s := { s0 with sticky_set := setInsert s0.sticky_set id }
  match lookupFeed s.feeds feed_id with
  | none => none
  | some feed =>
    if s.early_sticky.any (fun e => e.entry.time == id) then some s
    else if s.late_sticky.any (fun e => e.entry.time == id) then some s
    else
      match feed.early_reserve.reverse.find? (fun e => e.time == id) with
      | some e =>
        let i := (firstIdx (fun o => decide (id < o.entry.time)) s.early_sticky).getD 0
        some { s with early_sticky := insertAt s.early_sticky i (EntryState.mk feed_id e) }
      | none =>
        match feed.late_reserve.reverse.find? (fun e => e.time == id) with
        | some e =>
          let i := (firstIdx (fun o => decide (id < o.entry.time))
            s.late_sticky).getD s.late_sticky.length
          some { s with late_sticky := insertAt s.late_sticky i (EntryState.mk feed_id e) }
        | none => some s

/-- `unsticky` (state mutation part). -/
def unsticky (s0 : Infiniscroll) (id : Int) : Infiniscroll :=
  let s1 := { s0 with sticky_set := setErase s0.sticky_set id }
  let s2 :=
    match firstIdx (fun e => decide (e.entry.time = id)) s1.early_sticky with
    | some i => { s1 with early_sticky := removeAt s1.early_sticky i }
    | none => s1
  match lastIdx (fun e => decide (e.entry.time = id)) s2.late_sticky with
  | some i => { s2 with late_sticky := removeAt s2.late_sticky i }
  | none => s2

/-- Shake phase 5 (prune reserve, unset stop status, request refills) for a
single feed, from the loop body at the end of `shake_immediate`.  Returns
the new feed state and the requests issued for this feed; `none` models the
`get_pivot_*(..).unwrap()` panic. -/
def refillStep (reset_time : Int) (real : List EntryState) (feed_id : Nat)
    (f0 : FeedState) : Option (FeedState × List FeedRequest) :=
  if f0.initial then some (f0, [FeedRequest.around reset_time REQUEST_COUNT])
  else
    let f1 :=
      if f0.early_reserve.length > MAX_RESERVE then
        { f0 with early_reserve := f0.early_reserve.take MAX_RESERVE, early_stop := false }
      else f0
    let earlyReq : Option (List FeedRequest) :=
      if f1.early_stop = false ∧ f1.early_reserve.length < MIN_RESERVE then
        match get_pivot_early real feed_id f1 with
        | none => none
        | some p => some [FeedRequest.before p REQUEST_COUNT]
      else some []
    match earlyReq with
    | none => none
    | some reqs1 =>
      let f2 :=
        if f1.late_reserve.length > MAX_RESERVE then
          { f1 with late_reserve := f1.late_reserve.take MAX_RESERVE, late_stop := false }
        else f1
      if f2.late_stop = false ∧ f2.late_reserve.length < MIN_RESERVE then
        match get_pivot_late real feed_id f2 with
        | none => none
        | some p => some (f2, reqs1 ++ [FeedRequest.after p REQUEST_COUNT])
      else some (f2, reqs1)

/-- The feed-selection scan of shake phase 3 on the early side: `none`
models `break 'realize_early` on a feed with an empty, not-stopped early
reserve; `some use_feed` is the completed scan. -/
def findUseFeedEarly : List (Nat × FeedState) → Option (Nat × Int) →
    Option (Option (Nat × Int))
  | [], use_feed => some use_feed
  | (feed_id, f_state) :: rest, use_feed =>
    match f_state.early_reserve with
    | [] => if f_state.early_stop then findUseFeedEarly rest use_feed else none
    | e :: _ =>
      let replace :=
        match use_feed with
        | some (_, time) => decide (e.time > time)
        | none => true
      findUseFeedEarly rest (if replace then some (feed_id, e.time) else use_feed)

/-- The feed-selection scan of shake phase 3 on the late side. -/
def findUseFeedLate : List (Nat × FeedState) → Option (Nat × Int) →
    Option (Option (Nat × Int))
  | [], use_feed => some use_feed
  | (feed_id, f_state) :: rest, use_feed =>
    match f_state.late_reserve with
    | [] => if f_state.late_stop then findUseFeedLate rest use_feed else none
    | e :: _ =>
      let replace :=
        match use_feed with
        | some (_, time) => decide (e.time < time)
        | none => true
      findUseFeedLate rest (if replace then some (feed_id, e.time) else use_feed)

/-- `feeds.get_mut(feed_id)` followed by `early_reserve.pop_front()`;
`none` models the unwrap panics. -/
def popFrontEarly (feeds : List (Nat × FeedState)) (feed_id : Nat) :
    Option (List (Nat × FeedState) × Entry) :=
  match lookupFeed feeds feed_id with
  | none => none
  | some f =>
    match f.early_reserve with
    | [] => none
    | e :: rest => some (updateFeed feeds feed_id { f with early_reserve := rest }, e)

/-- `feeds.get_mut(feed_id)` followed by `late_reserve.pop_front()`. -/
def popFrontLate (feeds : List (Nat × FeedState)) (feed_id : Nat) :
    Option (List (Nat × FeedState) × Entry) :=
  match lookupFeed feeds feed_id with
  | none => none
  | some f =>
    match f.late_reserve with
    | [] => none
    | e :: rest => some (updateFeed feeds feed_id { f with late_reserve := rest }, e)

/-- Shake phase 3, early side (`'realize_early`): while used space is below
the target, select the feed whose early-reserve front has the greatest id,
pop it, reuse the sticky holding element when it is next, and accumulate
the realized entries (in pop order, late to early).  The boolean result is
`stop_all_early`.  `fuel` bounds the iteration count (any value above the
total reserve size is enough); `none` models exhausted fuel or an unwrap
panic, neither of which occurs in the source's reachable states. -/
def fillEarly : Nat → List (Nat × FeedState) → List EntryState → Rat → Rat →
    Option (List (Nat × FeedState) × List EntryState × List EntryState × Bool)
  | 0, _, _, _, _ => none
  | fuel + 1, feeds, early_sticky, used_early, want_nostop_early =>
    if used_early < want_nostop_early then
      match findUseFeedEarly feeds none with
      | none => some (feeds, early_sticky, [], false)
      | some none => some (feeds, early_sticky, [], true)
      | some (some (feed_id, _)) =>
        match popFrontEarly feeds feed_id with
        | none => none
        | some (feeds1, entry) =>
          let t : EntryState × List EntryState :=
            match early_sticky.getLast? with
            | some f =>
              if f.entry.time = entry.time then (f, early_sticky.dropLast)
              else (EntryState.mk feed_id entry, early_sticky)
            | none => (EntryState.mk feed_id entry, early_sticky)
          match fillEarly fuel feeds1 t.2 (used_early + entry.height) want_nostop_early with
          | none => none
          | some (feeds2, early_sticky2, realized, stop_all) =>
            some (feeds2, early_sticky2, t.1 :: realized, stop_all)
    else some (feeds, early_sticky, [], false)

/-- Shake phase 3, late side (`'realize_late`), selecting the least front id;
the sticky holding area is consumed from its front. -/
def fillLate : Nat → List (Nat × FeedState) → List EntryState → Rat → Rat →
    Option (List (Nat × FeedState) × List EntryState × List EntryState × Bool)
  | 0, _, _, _, _ => none
  | fuel + 1, feeds, late_sticky, used_late, want_nostop_late =>
    if used_late < want_nostop_late then
      match findUseFeedLate feeds none with
      | none => some (feeds, late_sticky, [], false)
      | some none => some (feeds, late_sticky, [], true)
      | some (some (feed_id, _)) =>
        match popFrontLate feeds feed_id with
        | none => none
        | some (feeds1, entry) =>
          let t : EntryState × List EntryState :=
            match late_sticky.head? with
            | some f =>
              if f.entry.time = entry.time then (f, late_sticky.tail)
              else (EntryState.mk feed_id entry, late_sticky)
            | none => (EntryState.mk feed_id entry, late_sticky)
          match fillLate fuel feeds1 t.2 (used_late + entry.height) want_nostop_late with
          | none => none
          | some (feeds2, late_sticky2, realized, stop_all) =>
            some (feeds2, late_sticky2, t.1 :: realized, stop_all)
    else some (feeds, late_sticky, [], false)

/-- A concrete entry rendering at 20px, the geometry used by the spec's
boundary scenarios. -/
def ent (t : Int) : Entry := ⟨t, 20⟩

/-- A quiescent, non-initial feed with nothing known. -/
def baseFeed : FeedState :=
  { initial := false, early_reserve := [], late_reserve := [], early_stop := false,
    late_stop := false, latest_known := none, earliest_known := none }

/-- A single-feed engine state with an empty realized list. -/
def baseState : Infiniscroll :=
  { reset_time := 0, feeds := [(0, baseFeed)], sticky_set := [], early_sticky := [],
    late_sticky := [], real := [], anchor_i := none, anchor_alignment := 1 / 2,
    anchor_offset := 0 }

/-- Two feeds: feed 0 holds an early reserve, feed 1 has an empty,
not-stopped early reserve, so early realization must halt. -/
def c1feeds : List (Nat × FeedState) :=
  [(0, { baseFeed with early_reserve := [ent 5, ent 4] }), (1, baseFeed)]

/-- Feed 0 is late-stopped at realized tail 10 while a notify has recorded
`latest_known = 20`; scenario 3 of the spec. -/
def c3state : Infiniscroll :=
  { baseState with
    feeds := [(0, { baseFeed with
      late_stop := true, latest_known := some 20, earliest_known := some 0 })],
    real := [⟨0, ent 10⟩], anchor_i := some 0 }

/-- A feed still awaiting its initial `respond_around`. -/
def c4state : Infiniscroll :=
  { baseState with feeds := [(0, { baseFeed with initial := true })] }

/-- Realized entries 1 and 5; the id 3 falls strictly between them. -/
def c5state : Infiniscroll :=
  { baseState with real := [⟨0, ent 1⟩, ⟨0, ent 5⟩], anchor_i := some 0 }

def c6feed : FeedState :=
  { baseFeed with earliest_known := some 10, latest_known := some 10 }

/-- Feed 0 has realized entry 10 and empty reserves, so its current early
and late pivots are both 10. -/
def c6state : Infiniscroll :=
  { baseState with feeds := [(0, c6feed)], real := [⟨0, ent 10⟩], anchor_i := some 0 }

/-- A non-initial feed whose early reserve overflowed to 160 entries. -/
def c7feed : FeedState :=
  { baseFeed with
    early_reserve := (List.range 160).map (fun i => ent i),
    early_stop := true, late_stop := true }

/-- The expected outcome of shake phase 5 on `c7feed`. -/
def c7feedT : FeedState :=
  { c7feed with
    early_reserve := c7feed.early_reserve.take MAX_RESERVE, early_stop := false }

def c8feed : FeedState :=
  { baseFeed with
    early_reserve := (List.range 160).map (fun i => ent i),
    early_stop := true, late_stop := true }

def c8feedT : FeedState :=
  { c8feed with
    early_reserve := c8feed.early_reserve.take MAX_RESERVE, early_stop := false }

def c8stateFeed : FeedState :=
  { baseFeed with earliest_known := some 10, latest_known := some 10 }

/-- Feed 0 with realized entry 10, empty reserves: early pivot is 10. -/
def c8state : Infiniscroll :=
  { baseState with
    feeds := [(0, c8stateFeed)], real := [⟨0, ent 10⟩], anchor_i := some 0 }

/-- 151 entries descending from 9: a well-formed over-sized response. -/
def c8entries : List Entry := (List.range 151).map (fun i => ent (9 - (i : Int)))

def c9feed : FeedState := { baseFeed with early_reserve := [ent 7, ent 6] }

/-- Id 3 is sticky and held; id 6 sits in the early reserve and is not
sticky. -/
def c9state : Infiniscroll :=
  { baseState with
    feeds := [(0, c9feed)], sticky_set := [3], early_sticky := [⟨0, ent 3⟩] }

theorem removeAt_insertAt (a : α) :
    ∀ (l : List α) (i : Nat), i ≤ l.length → removeAt (insertAt l i a) i = l
  | l, 0, _ => by cases l <;> rfl
  | [], i + 1, h => absurd h (by simp)
  | x :: l, i + 1, h => by
    simp only [insertAt, removeAt]
    rw [removeAt_insertAt a l i (by simpa using h)]

theorem firstIdx_none_of_all (p : α → Bool) :
    ∀ l : List α, (∀ x ∈ l, p x = false) → firstIdx p l = none
  | [], _ => rfl
  | a :: l, h => by
    simp only [firstIdx, h a (List.mem_cons_self a l)]
    rw [firstIdx_none_of_all p l (fun x hx => h x (List.mem_cons_of_mem a hx))]
    rfl

theorem firstIdx_insertAt (p : α → Bool) (a : α) (ha : p a = true) :
    ∀ (l : List α) (i : Nat), i ≤ l.length → (∀ x ∈ l, p x = false) →
      firstIdx p (insertAt l i a) = some i
  | l, 0, _, _ => by simp [insertAt, firstIdx, ha]
  | [], i + 1, h, _ => absurd h (by simp)
  | x :: l, i + 1, h, hall => by
    simp only [insertAt, firstIdx, hall x (List.mem_cons_self x l)]
    rw [firstIdx_insertAt p a ha l i (by simpa using h)
      (fun y hy => hall y (List.mem_cons_of_mem x hy))]
    rfl

theorem firstIdx_lt_length (p : α → Bool) :
    ∀ (l : List α) (i : Nat), firstIdx p l = some i → i < l.length
  | [], i, h => by simp [firstIdx] at h
  | a :: l, i, h => by
    simp only [firstIdx] at h
    by_cases hpa : p a = true
    · rw [if_pos hpa] at h
      injection h with h
      subst h
      simp
    · rw [if_neg hpa] at h
      cases hj : firstIdx p l with
      | none => rw [hj] at h; simp at h
      | some j =>
        rw [hj] at h
        injection h with h
        subst h
        have := firstIdx_lt_length p l j hj
        simp only [List.length_cons]
        omega

theorem lastIdxAux_of_all (p : α → Bool) :
    ∀ (l : List α) (n : Nat) (acc : Option Nat),
      (∀ x ∈ l, p x = false) → lastIdxAux p l n acc = acc
  | [], _, _, _ => rfl
  | a :: l, n, acc, h => by
    simp only [lastIdxAux, h a (List.mem_cons_self a l)]
    exact lastIdxAux_of_all p l (n + 1) acc (fun x hx => h x (List.mem_cons_of_mem a hx))

theorem lastIdxAux_insertAt (p : α → Bool) (a : α) (ha : p a = true) :
    ∀ (l : List α) (i n : Nat) (acc : Option Nat), i ≤ l.length →
      (∀ x ∈ l, p x = false) → lastIdxAux p (insertAt l i a) n acc = some (n + i)
  | l, 0, n, acc, _, hall => by
    simp only [insertAt, lastIdxAux]
    rw [if_pos ha, lastIdxAux_of_all p l (n + 1) (some n) hall]
    rfl
  | [], i + 1, n, acc, h, _ => absurd h (by simp)
  | x :: l, i + 1, n, acc, h, hall => by
    simp only [insertAt, lastIdxAux]
    rw [if_neg (by simp [hall x (List.mem_cons_self x l)]),
      lastIdxAux_insertAt p a ha l i (n + 1) acc (by simpa using h)
      (fun y hy => hall y (List.mem_cons_of_mem x hy))]
    congr 1
    omega

theorem setErase_setInsert (l : List Int) (a : Int) (h : a ∉ l) :
    setErase (setInsert l a) a = l := by
  simp only [setInsert, if_neg h, setErase, List.filter]
  simp only [decide_not, decide_True, Bool.not_true]  
  rw [List.filter_eq_self.mpr]
  intro b hb
  simp only [Bool.not_eq_true', decide_eq_false_iff_not]
  intro hba
  exact h (hba ▸ hb)

/-- Claim C9: for an id that is not currently sticky (and hence has no live
holding-area element), `sticky feed_id id` followed by `unsticky id`
restores the whole engine state — in particular the sticky set and both
sticky holding areas, element membership and order included. -/
theorem c9_sticky_roundtrip (s : Infiniscroll) (feed_id : Nat) (id : Int)
    (feed : FeedState) (hfeed : lookupFeed s.feeds feed_id = some feed)
    (hset : id ∉ s.sticky_set)
    (hearly : ∀ r ∈ s.early_sticky, r.entry.time ≠ id)
    (hlate : ∀ r ∈ s.late_sticky, r.entry.time ≠ id) :
    (sticky s feed_id id).map (fun t => unsticky t id) = some s := by
  have hanyE : s.early_sticky.any (fun r => r.entry.time == id) = false := by
    rw [List.any_eq_false]
    intro r hr
    simpa using hearly r hr
  have hanyL : s.late_sticky.any (fun r => r.entry.time == id) = false := by
    rw [List.any_eq_false]
    intro r hr
    simpa using hlate r hr
  have hallE : ∀ r ∈ s.early_sticky, (fun x => decide (x.entry.time = id)) r = false :=
    fun r hr => by simpa using hearly r hr
  have hallL : ∀ r ∈ s.late_sticky, (fun x => decide (x.entry.time = id)) r = false :=
    fun r hr => by simpa using hlate r hr
  have hfiE : firstIdx (fun r => decide (r.entry.time = id)) s.early_sticky = none :=
    firstIdx_none_of_all _ _ hallE
  have hliL : ∀ (n : Nat) (acc : Option Nat),
      lastIdxAux (fun r => decide (r.entry.time = id)) s.late_sticky n acc = acc :=
    fun n acc => lastIdxAux_of_all _ _ _ _ hallL
  have hsetE : setErase (setInsert s.sticky_set id) id = s.sticky_set :=
    setErase_setInsert _ _ hset
  simp only [sticky, hfeed, hanyE, Bool.false_eq_true, if_false]
  rw [if_neg (by simp [hanyL])]
  cases hfindE : feed.early_reserve.reverse.find? (fun e => e.time == id) with
  | some e =>
    have het : e.time = id := by simpa using List.find?_some hfindE
    have hpe : (fun x => decide (x.entry.time = id)) (EntryState.mk feed_id e) = true := by
      simp [het]
    cases hfi : firstIdx (fun o => decide (id < o.entry.time)) s.early_sticky with
    | some j =>
      have hj : j ≤ s.early_sticky.length := le_of_lt (firstIdx_lt_length _ _ _ hfi)
      simp only [hfi, Option.getD_some, Option.map_some']
      simp only [unsticky, hsetE, lastIdx,
        firstIdx_insertAt (fun x => decide (x.entry.time = id)) (EntryState.mk feed_id e)
          hpe s.early_sticky j hj hallE,
        removeAt_insertAt (EntryState.mk feed_id e) s.early_sticky j hj, hliL]
    | none =>
      have h0 : (0 : Nat) ≤ s.early_sticky.length := Nat.zero_le _
      simp only [hfi, Option.getD_none, Option.map_some']
      simp only [unsticky, hsetE, lastIdx,
        firstIdx_insertAt (fun x => decide (x.entry.time = id)) (EntryState.mk feed_id e)
          hpe s.early_sticky 0 h0 hallE,
        removeAt_insertAt (EntryState.mk feed_id e) s.early_sticky 0 h0, hliL]
  | none =>
    cases hfindL : feed.late_reserve.reverse.find? (fun e => e.time == id) with
    | some e =>
      have het : e.time = id := by simpa using List.find?_some hfindL
      have hpe : (fun x => decide (x.entry.time = id)) (EntryState.mk feed_id e) = true := by
        simp [het]
      cases hfi : firstIdx (fun o => decide (id < o.entry.time)) s.late_sticky with
      | some j =>
        have hj : j ≤ s.late_sticky.length := le_of_lt (firstIdx_lt_length _ _ _ hfi)
        simp only [hfi, Option.getD_some, Option.map_some']
        simp only [unsticky, hsetE, hfiE, lastIdx,
          lastIdxAux_insertAt (fun x => decide (x.entry.time = id)) (EntryState.mk feed_id e)
            hpe s.late_sticky j 0 none hj hallL, Nat.zero_add,
          removeAt_insertAt (EntryState.mk feed_id e) s.late_sticky j hj]
      | none =>
        have hlen : s.late_sticky.length ≤ s.late_sticky.length := le_refl _
        simp only [hfi, Option.getD_none, Option.map_some']
        simp only [unsticky, hsetE, hfiE, lastIdx,
          lastIdxAux_insertAt (fun x => decide (x.entry.time = id)) (EntryState.mk feed_id e)
            hpe s.late_sticky s.late_sticky.length 0 none hlen hallL, Nat.zero_add,
          removeAt_insertAt (EntryState.mk feed_id e) s.late_sticky s.late_sticky.length hlen]
    | none =>
      simp only [Option.map_some']
      simp only [unsticky, hsetE, hfiE, lastIdx, hliL]

/-- Witness for C9 at a concrete state: id 6 sits in feed 0's early
reserve, is not sticky, and has no holding element. -/
theorem c9_sticky_roundtrip_witness :
    (sticky c9state 0 6).map (fun t => unsticky t 6) = some c9state :=
  c9_sticky_roundtrip c9state 0 6 c9feed rfl (by decide) (by decide) (by decide)

/-- Claim C10: an empty `respond_entries_before` or `respond_entries_after`
returns immediately, before any state mutation — in particular the `stop`
flag it carries is never recorded. -/
theorem c10_empty_response_noop (s : Infiniscroll) (feed_id : Nat) (pivot : Int)
    (stop : Bool) :
    respond_entries_before s feed_id pivot [] stop = some s ∧
    respond_entries_after s feed_id pivot [] stop = some (s, []) :=
  ⟨rfl, rfl⟩

/-- Counterexample for C2: a `respond_entries_before` whose single entry is
not strictly below the pivot fails the `assert!` and panics (modelled as
`none`) — it is not silently discarded, contradicting the claim that the
engine never panics on feed behavior. -/
theorem c2_unsorted_response_cex :
    respond_entries_before baseState 0 10 [ent 11] false = none ∧
    (ent 11).time ≥ 10 := by decide

/-- Claim C2 (amended): a response whose entries fail the strict-ordering
sanity check makes the engine panic via `assert!` before any state change,
for every engine state, feed, pivot and stop flag. -/
theorem c2_unsorted_response_panics (s : Infiniscroll) (feed_id : Nat) (pivot : Int)
    (entries : List Entry) (stop : Bool) (hne : entries ≠ []) :
    (checkDesc pivot entries = false →
      respond_entries_before s feed_id pivot entries stop = none) ∧
    (checkAsc pivot entries = false →
      respond_entries_after s feed_id pivot entries stop = none) := by
  have hempty : entries.isEmpty = false := by
    cases entries with
    | nil => exact absurd rfl hne
    | cons a l => rfl
  constructor
  · intro h
    simp [respond_entries_before, hempty, h]
  · intro h
    simp [respond_entries_after, hempty, h]

/-- Witness for C2 (amended) at a concrete input: an ascending check
violation in `respond_entries_after` panics. -/
theorem c2_unsorted_response_witness :
    respond_entries_after baseState 0 10 [ent 9] false = none :=
  (c2_unsorted_response_panics baseState 0 10 [ent 9] false (by decide)).2 (by decide)

/-- Claim C3, the failing late case evaluated: feed 0 is late-stopped with
realized tail 10 and `latest_known = 20` (recorded by a notify); the
accepted `respond_entries_after` carries entry 11 and `stop = true` and does
not contain 20.  The engine issues another `request_after` (pivot 11), but
the stored `late_stop` remains `true` — the response's stop flag is NOT
downgraded to false, although the source's own log message says
"set stop = false". -/
theorem c3_late_stop_kept :
    (respond_entries_after c3state 0 10 [ent 11] true).map
      (fun t => ((lookupFeed t.1.feeds 0).map (fun f => f.late_stop), t.2)) =
      some (some true, [(0, FeedRequest.after 11 REQUEST_COUNT)]) := by decide

/-- Claim C4, the failing case evaluated: `respond_entries_around` calls
`update_earliest_known` twice per entry and never `update_latest_known`, so
after an accepted initial response carrying entry 5 the feed's
`latest_known` is still `none` instead of the maximum id observed. -/
theorem c4_latest_known_not_updated :
    (respond_entries_around c4state 0 0 [ent 5] false false).map
      (fun t => (lookupFeed t.feeds 0).map (fun f => (f.earliest_known, f.latest_known))) =
      some (some (some 5, none)) := by decide

/-- Counterexample for C5: id 3 is realized in no entry of `c5state`
(realized ids are 1 and 5), yet `jump` does not reset — it merely moves the
anchor to index 1, leaving the realized list, feeds, sticky state and
`reset_time` untouched. -/
theorem c5_jump_mid_cex :
    (∀ r ∈ c5state.real, r.entry.time ≠ 3) ∧
    jump c5state 3 = { c5state with anchor_i := some 1 } ∧
    (jump c5state 3).real ≠ [] :=
  ⟨by decide, rfl, by decide⟩

set_option maxRecDepth 4000 in
/-- Counterexample for C8: an accepted `respond_entries_before` extends the
early reserve without any cap, so immediately after the call (before the
next shake truncates) the reserve holds 151 > MAX_RESERVE entries. -/
theorem c8_reserve_cap_cex :
    (respond_entries_before c8state 0 10 c8entries false).map
      (fun t => (lookupFeed t.feeds 0).map (fun f => f.early_reserve.length)) =
      some (some 151) ∧ MAX_RESERVE < 151 := by decide

/-- Claim C6: a `respond_entries_before` / `respond_entries_after` that
passes the ordering assertion but whose pivot does not equal the engine's
current early/late pivot for that feed returns with the engine state
unchanged, and a `respond_entries_around` whose pivot is not the current
`reset_time` likewise changes nothing. -/
theorem c6_stale_discard (s : Infiniscroll) (feed_id : Nat) (pivot : Int)
    (entries : List Entry) (stop early_stop late_stop : Bool) :
    (∀ f_state, lookupFeed s.feeds feed_id = some f_state →
      checkDesc pivot entries = true →
      (∀ cp, get_pivot_early s.real feed_id f_state = some cp → pivot ≠ cp) →
      respond_entries_before s feed_id pivot entries stop = some s) ∧
    (∀ f_state, lookupFeed s.feeds feed_id = some f_state →
      checkAsc pivot entries = true →
      (∀ cp, get_pivot_late s.real feed_id f_state = some cp → pivot ≠ cp) →
      respond_entries_after s feed_id pivot entries stop = some (s, [])) ∧
    (pivot ≠ s.reset_time →
      respond_entries_around s feed_id pivot entries early_stop late_stop = some s) := by
  refine ⟨?_, ?_, ?_⟩
  · intro f_state hlk hchk hcp
    by_cases he : entries.isEmpty = true
    · simp [respond_entries_before, he]
    · simp only [respond_entries_before, if_neg he]
      rw [if_neg (by simp [hchk])]
      simp only [hlk]
      cases hgp : get_pivot_early s.real feed_id f_state with
      | none => simp only [hgp]
      | some cp =>
        simp only [hgp]
        rw [if_pos (hcp cp hgp)]
  · intro f_state hlk hchk hcp
    by_cases he : entries.isEmpty = true
    · simp [respond_entries_after, he]
    · simp only [respond_entries_after, if_neg he]
      rw [if_neg (by simp [hchk])]
      simp only [hlk]
      cases hgp : get_pivot_late s.real feed_id f_state with
      | none => simp only [hgp]
      | some cp =>
        simp only [hgp]
        rw [if_pos (hcp cp hgp)]
  · intro h
    simp only [respond_entries_around]
    rw [if_pos h]

/-- Witness for C6 at a concrete input: the current early pivot of feed 0
is 10, so a sorted response for pivot 99 is discarded unchanged. -/
theorem c6_stale_discard_witness :
    respond_entries_before c6state 0 99 [ent 98] false = some c6state := by
  apply (c6_stale_discard c6state 0 99 [ent 98] false false false).1 c6feed rfl (by decide)
  intro cp hcp
  have h10 : get_pivot_early c6state.real 0 c6feed = some 10 := rfl
  rw [h10] at hcp
  cases hcp
  decide

theorem head?_take_pos (l : List α) (n : Nat) (hn : n ≠ 0) :
    (l.take n).head? = l.head? := by
  cases l with
  | nil => simp
  | cons a l =>
    cases n with
    | zero => exact absurd rfl hn
    | succ m => simp

theorem get_pivot_late_congr (real : List EntryState) (feed_id : Nat)
    (f g : FeedState) (h1 : f.late_reserve = g.late_reserve)
    (h2 : f.early_reserve.head? = g.early_reserve.head?) :
    get_pivot_late real feed_id f = get_pivot_late real feed_id g := by
  simp only [get_pivot_late, h1, h2]

theorem get_pivot_early_congr (real : List EntryState) (feed_id : Nat)
    (f g : FeedState) (h1 : f.early_reserve = g.early_reserve)
    (h2 : f.late_reserve.head? = g.late_reserve.head?) :
    get_pivot_early real feed_id f = get_pivot_early real feed_id g := by
  simp only [get_pivot_early, h1, h2]

/-- Claim C8 (amended): the reserve cap does hold after shake phase 5 — for
every non-initial feed the refill step leaves both reserves at or below
MAX_RESERVE (while `respond_entries_before` / `respond_entries_around` can
exceed the cap until that phase runs, see the counterexample). -/
theorem c8_shake_bound (reset_time : Int) (real : List EntryState) (feed_id : Nat)
    (f0 : FeedState) (hini : f0.initial = false) :
    ∀ f' reqs, refillStep reset_time real feed_id f0 = some (f', reqs) →
      f'.early_reserve.length ≤ MAX_RESERVE ∧ f'.late_reserve.length ≤ MAX_RESERVE := by
  intro f' reqs h
  simp only [refillStep, hini, Bool.false_eq_true, if_false] at h
  by_cases hE : f0.early_reserve.length > MAX_RESERVE
  · simp only [if_pos hE] at h
    have hlenE : (List.take MAX_RESERVE f0.early_reserve).length ≤ MAX_RESERVE := by
      simp [List.length_take]
    split at h
    · exact absurd h (by simp)
    next reqs1 heq =>
      by_cases hL : f0.late_reserve.length > MAX_RESERVE
      · simp only [if_pos hL] at h
        split at h
        · split at h
          · exact absurd h (by simp)
          next p hp =>
            injection h with h2
            cases h2
            constructor <;>
              (simp only [List.length_take, MAX_RESERVE, MIN_RESERVE, REQUEST_COUNT] at hE hL ⊢; omega)
        · injection h with h2
          cases h2
          constructor <;>
            (simp only [List.length_take, MAX_RESERVE, MIN_RESERVE, REQUEST_COUNT] at hE hL ⊢; omega)
      · simp only [if_neg hL] at h
        split at h
        · split at h
          · exact absurd h (by simp)
          next p hp =>
            injection h with h2
            cases h2
            constructor <;>
              (simp only [List.length_take, MAX_RESERVE, MIN_RESERVE, REQUEST_COUNT] at hE hL ⊢; omega)
        · injection h with h2
          cases h2
          constructor <;>
            (simp only [List.length_take, MAX_RESERVE, MIN_RESERVE, REQUEST_COUNT] at hE hL ⊢; omega)
  · simp only [if_neg hE] at h
    split at h
    · exact absurd h (by simp)
    next reqs1 heq =>
      by_cases hL : f0.late_reserve.length > MAX_RESERVE
      · simp only [if_pos hL] at h
        split at h
        · split at h
          · exact absurd h (by simp)
          next p hp =>
            injection h with h2
            cases h2
            constructor <;>
              (simp only [List.length_take, MAX_RESERVE, MIN_RESERVE, REQUEST_COUNT] at hE hL ⊢; omega)
        · injection h with h2
          cases h2
          constructor <;>
            (simp only [List.length_take, MAX_RESERVE, MIN_RESERVE, REQUEST_COUNT] at hE hL ⊢; omega)
      · simp only [if_neg hL] at h
        split at h
        · split at h
          · exact absurd h (by simp)
          next p hp =>
            injection h with h2
            cases h2
            constructor <;>
              (simp only [List.length_take, MAX_RESERVE, MIN_RESERVE, REQUEST_COUNT] at hE hL ⊢; omega)
        · injection h with h2
          cases h2
          constructor <;>
            (simp only [List.length_take, MAX_RESERVE, MIN_RESERVE, REQUEST_COUNT] at hE hL ⊢; omega)


set_option maxRecDepth 8000 in
/-- Witness for C8 (amended) at a concrete feed with a 160-entry early
reserve. -/
theorem c8_shake_bound_witness :
    c8feedT.early_reserve.length ≤ MAX_RESERVE ∧
    c8feedT.late_reserve.length ≤ MAX_RESERVE :=
  c8_shake_bound 0 [] 0 c8feed rfl c8feedT [] (by decide)

/-- Claim C7: in shake phase 5, a non-initial feed whose early (late)
reserve exceeds MAX_RESERVE = 150 is truncated at its far end to exactly
150 entries with the matching stop flag cleared, and a side that is not
stopped and holds fewer than MIN_RESERVE = 50 entries gets the matching
request with count REQUEST_COUNT = 50. -/
theorem c7_refill (reset_time : Int) (real : List EntryState) (feed_id : Nat)
    (f0 : FeedState) (hini : f0.initial = false) :
    (f0.early_reserve.length > MAX_RESERVE →
      ∀ f' reqs, refillStep reset_time real feed_id f0 = some (f', reqs) →
        f'.early_reserve = f0.early_reserve.take MAX_RESERVE ∧
        f'.early_reserve.length = MAX_RESERVE ∧ f'.early_stop = false) ∧
    (f0.late_reserve.length > MAX_RESERVE →
      ∀ f' reqs, refillStep reset_time real feed_id f0 = some (f', reqs) →
        f'.late_reserve = f0.late_reserve.take MAX_RESERVE ∧
        f'.late_reserve.length = MAX_RESERVE ∧ f'.late_stop = false) ∧
    (f0.early_stop = false → f0.early_reserve.length < MIN_RESERVE →
      ∀ f' reqs, refillStep reset_time real feed_id f0 = some (f', reqs) →
        ∃ p, get_pivot_early real feed_id f0 = some p ∧
          FeedRequest.before p REQUEST_COUNT ∈ reqs) ∧
    (f0.late_stop = false → f0.late_reserve.length < MIN_RESERVE →
      ∀ f' reqs, refillStep reset_time real feed_id f0 = some (f', reqs) →
        ∃ p, get_pivot_late real feed_id f0 = some p ∧
          FeedRequest.after p REQUEST_COUNT ∈ reqs) := by
  refine ⟨?_, ?_, ?_, ?_⟩
  · intro hE f' reqs h
    simp only [refillStep, hini, Bool.false_eq_true, if_false] at h
    simp only [if_pos hE] at h
    split at h
    · exact absurd h (by simp)
    next reqs1 heq =>
      by_cases hL : f0.late_reserve.length > MAX_RESERVE
      · simp only [if_pos hL] at h
        split at h
        · split at h
          · exact absurd h (by simp)
          next p hp =>
            injection h with h2
            cases h2
            refine ⟨rfl, ?_, rfl⟩
            simp only [List.length_take, MAX_RESERVE, MIN_RESERVE, REQUEST_COUNT] at hE ⊢
            omega
        · injection h with h2
          cases h2
          refine ⟨rfl, ?_, rfl⟩
          simp only [List.length_take, MAX_RESERVE, MIN_RESERVE, REQUEST_COUNT] at hE ⊢
          omega
      · simp only [if_neg hL] at h
        split at h
        · split at h
          · exact absurd h (by simp)
          next p hp =>
            injection h with h2
            cases h2
            refine ⟨rfl, ?_, rfl⟩
            simp only [List.length_take, MAX_RESERVE, MIN_RESERVE, REQUEST_COUNT] at hE ⊢
            omega
        · injection h with h2
          cases h2
          refine ⟨rfl, ?_, rfl⟩
          simp only [List.length_take, MAX_RESERVE, MIN_RESERVE, REQUEST_COUNT] at hE ⊢
          omega
  · intro hL f' reqs h
    simp only [refillStep, hini, Bool.false_eq_true, if_false] at h
    by_cases hE : f0.early_reserve.length > MAX_RESERVE
    · simp only [if_pos hE] at h
      split at h
      · exact absurd h (by simp)
      next reqs1 heq =>
        simp only [if_pos hL] at h
        split at h
        · split at h
          · exact absurd h (by simp)
          next p hp =>
            injection h with h2
            cases h2
            refine ⟨rfl, ?_, rfl⟩
            simp only [List.length_take, MAX_RESERVE, MIN_RESERVE, REQUEST_COUNT] at hL ⊢
            omega
        · injection h with h2
          cases h2
          refine ⟨rfl, ?_, rfl⟩
          simp only [List.length_take, MAX_RESERVE, MIN_RESERVE, REQUEST_COUNT] at hL ⊢
          omega
    · simp only [if_neg hE] at h
      split at h
      · exact absurd h (by simp)
      next reqs1 heq =>
        simp only [if_pos hL] at h
        split at h
        · split at h
          · exact absurd h (by simp)
          next p hp =>
            injection h with h2
            cases h2
            refine ⟨rfl, ?_, rfl⟩
            simp only [List.length_take, MAX_RESERVE, MIN_RESERVE, REQUEST_COUNT] at hL ⊢
            omega
        · injection h with h2
          cases h2
          refine ⟨rfl, ?_, rfl⟩
          simp only [List.length_take, MAX_RESERVE, MIN_RESERVE, REQUEST_COUNT] at hL ⊢
          omega
  · intro hstop hlen f' reqs h
    have hE : ¬ f0.early_reserve.length > MAX_RESERVE := by
      simp only [MAX_RESERVE, MIN_RESERVE, REQUEST_COUNT] at *
      omega
    simp only [refillStep, hini, Bool.false_eq_true, if_false, if_neg hE] at h
    rw [if_pos (And.intro hstop hlen)] at h
    cases hgp : get_pivot_early real feed_id f0 with
    | none =>
      simp only [hgp] at h
      exact absurd h (by simp)
    | some p =>
      simp only [hgp] at h
      refine ⟨p, rfl, ?_⟩
      by_cases hL : f0.late_reserve.length > MAX_RESERVE
      · simp only [if_pos hL] at h
        split at h
        · split at h
          · exact absurd h (by simp)
          next q hq =>
            injection h with h2
            cases h2
            simp
        · injection h with h2
          cases h2
          simp
      · simp only [if_neg hL] at h
        split at h
        · split at h
          · exact absurd h (by simp)
          next q hq =>
            injection h with h2
            cases h2
            simp
        · injection h with h2
          cases h2
          simp
  · intro hlstop hllen f' reqs h
    have hL : ¬ f0.late_reserve.length > MAX_RESERVE := by
      simp only [MAX_RESERVE, MIN_RESERVE, REQUEST_COUNT] at *
      omega
    simp only [refillStep, hini, Bool.false_eq_true, if_false] at h
    by_cases hE : f0.early_reserve.length > MAX_RESERVE
    · simp only [if_pos hE] at h
      split at h
      · exact absurd h (by simp)
      next reqs1 heq =>
        simp only [if_neg hL] at h
        rw [if_pos (And.intro hlstop hllen)] at h
        rw [get_pivot_late_congr real feed_id
          { initial := false, early_reserve := List.take MAX_RESERVE f0.early_reserve,
            late_reserve := f0.late_reserve, early_stop := false, late_stop := f0.late_stop,
            latest_known := f0.latest_known, earliest_known := f0.earliest_known } f0 rfl
          (head?_take_pos f0.early_reserve MAX_RESERVE (by decide))] at h
        cases hgp : get_pivot_late real feed_id f0 with
        | none =>
          simp only [hgp] at h
          exact absurd h (by simp)
        | some p =>
          simp only [hgp] at h
          injection h with h2
          cases h2
          exact ⟨p, rfl, by simp⟩
    · simp only [if_neg hE] at h
      split at h
      · exact absurd h (by simp)
      next reqs1 heq =>
        simp only [if_neg hL] at h
        rw [if_pos (And.intro hlstop hllen)] at h
        cases hgp : get_pivot_late real feed_id f0 with
        | none =>
          simp only [hgp] at h
          exact absurd h (by simp)
        | some p =>
          simp only [hgp] at h
          injection h with h2
          cases h2
          exact ⟨p, rfl, by simp⟩

set_option maxRecDepth 8000 in
/-- Witness for C7 at a concrete feed with a 160-entry early reserve. -/
theorem c7_refill_witness :
    c7feedT.early_reserve = c7feed.early_reserve.take MAX_RESERVE ∧
    c7feedT.early_reserve.length = MAX_RESERVE ∧ c7feedT.early_stop = false :=
  (c7_refill 0 [] 0 c7feed rfl).1 (by decide) c7feedT [] (by decide)

theorem jumpScan_found_spec (time : Int) :
    ∀ (l : List EntryState) (n i : Nat), jumpScan time l n = .found i →
      n ≤ i ∧ ∃ r, l[i - n]? = some r ∧ r.entry.time = time ∧
        ∀ k r', k < i - n → l[k]? = some r' → r'.entry.time < time
  | [], n, i, h => by simp [jumpScan] at h
  | e :: rest, n, i, h => by
    simp only [jumpScan] at h
    by_cases h1 : e.entry.time = time
    · rw [if_pos h1] at h
      injection h with h2
      subst h2
      refine ⟨le_refl n, e, by simp, h1, ?_⟩
      intro k r' hk
      omega
    · rw [if_neg h1] at h
      by_cases h2 : e.entry.time > time
      · rw [if_pos h2] at h
        exact absurd h (by simp)
      · rw [if_neg h2] at h
        obtain ⟨hni, r, hr, hrt, hpref⟩ := jumpScan_found_spec time rest (n + 1) i h
        refine ⟨by omega, r, ?_, hrt, ?_⟩
        · have hs : i - n = (i - (n + 1)) + 1 := by omega
          rw [hs]
          simpa using hr
        · intro k r' hk hkr
          cases k with
          | zero =>
            have he : r' = e := by simpa using hkr.symm
            subst he
            exact lt_of_le_of_ne (le_of_not_lt h2) h1
          | succ k' =>
            have hk' : k' < i - (n + 1) := by omega
            exact hpref k' r' hk' (by simpa using hkr)

theorem jumpScan_gt_spec (time : Int) :
    ∀ (l : List EntryState) (n i : Nat), jumpScan time l n = .gt i →
      n ≤ i ∧ (∃ r, l[i - n]? = some r ∧ time < r.entry.time) ∧
        ∀ k r', k < i - n → l[k]? = some r' → r'.entry.time < time
  | [], n, i, h => by simp [jumpScan] at h
  | e :: rest, n, i, h => by
    simp only [jumpScan] at h
    by_cases h1 : e.entry.time = time
    · rw [if_pos h1] at h
      exact absurd h (by simp)
    · rw [if_neg h1] at h
      by_cases h2 : e.entry.time > time
      · rw [if_pos h2] at h
        injection h with h3
        subst h3
        refine ⟨le_refl n, ⟨e, by simp, h2⟩, ?_⟩
        intro k r' hk
        omega
      · rw [if_neg h2] at h
        obtain ⟨hni, ⟨r, hr, hrt⟩, hpref⟩ := jumpScan_gt_spec time rest (n + 1) i h
        refine ⟨by omega, ⟨r, ?_, hrt⟩, ?_⟩
        · have hs : i - n = (i - (n + 1)) + 1 := by omega
          rw [hs]
          simpa using hr
        · intro k r' hk hkr
          cases k with
          | zero =>
            have he : r' = e := by simpa using hkr.symm
            subst he
            exact lt_of_le_of_ne (le_of_not_lt h2) h1
          | succ k' =>
            have hk' : k' < i - (n + 1) := by omega
            exact hpref k' r' hk' (by simpa using hkr)

/-- Claim C5 (amended): `jump time` repositions the anchor (alignment 0.5,
offset 0) without resetting whenever the scan finds an exact match at index
`i`, or a first strictly later entry at an index above 0; it performs the
full reset — clearing realized, reserves, holding areas, stops, setting
every feed initial with `reset_time = time`, after which the immediate
shake's refill phase issues `request_around time 50` on every feed — only
when the scan finds no entry at or after `time`, or the first realized
entry is already past it. -/
theorem c5_jump_cases (s : Infiniscroll) (time : Int) :
    (∀ i, jumpScan time s.real 0 = .found i →
      jump s time = { s with
        anchor_i := some i, anchor_alignment := 1 / 2, anchor_offset := 0 } ∧
      ∃ r, s.real[i]? = some r ∧ r.entry.time = time) ∧
    (∀ i, jumpScan time s.real 0 = .gt (i + 1) →
      jump s time = { s with
        anchor_i := some (i + 1), anchor_alignment := 1 / 2, anchor_offset := 0 } ∧
      (∃ r, s.real[i + 1]? = some r ∧ time < r.entry.time) ∧
      ∀ k r', k ≤ i → s.real[k]? = some r' → r'.entry.time < time) ∧
    ((jumpScan time s.real 0 = .gt 0 ∨ jumpScan time s.real 0 = .none') →
      jump s time = jumpReset s time ∧
      ∀ p ∈ (jumpReset s time).feeds, p.2.initial = true ∧
        refillStep time (jumpReset s time).real p.1 p.2 =
          some (p.2, [FeedRequest.around time REQUEST_COUNT])) := by
  refine ⟨?_, ?_, ?_⟩
  · intro i h
    obtain ⟨-, r, hr, hrt, -⟩ := jumpScan_found_spec time s.real 0 i h
    refine ⟨by simp only [jump, h], r, by simpa using hr, hrt⟩
  · intro i h
    obtain ⟨-, ⟨r, hr, hrt⟩, hpref⟩ := jumpScan_gt_spec time s.real 0 (i + 1) h
    refine ⟨by simp only [jump, h], ⟨r, by simpa using hr, hrt⟩, ?_⟩
    intro k r' hk hkr
    exact hpref k r' (by omega) hkr
  · intro h
    constructor
    · rcases h with h | h <;> simp only [jump, h]
    · intro p hp
      simp only [jumpReset, List.mem_map] at hp
      obtain ⟨q, hq, hpq⟩ := hp
      subst hpq
      exact ⟨rfl, rfl⟩

/-- Witness for C5 (amended) at a concrete state: id 5 is realized at index
1, so `jump` repositions the anchor there. -/
theorem c5_jump_cases_witness :
    jump c5state 5 = { c5state with
      anchor_i := some 1, anchor_alignment := 1 / 2, anchor_offset := 0 } ∧
    ∃ r, c5state.real[1]? = some r ∧ r.entry.time = 5 :=
  (c5_jump_cases c5state 5).1 1 (by decide)

theorem lookupFeed_mem_nodup (feeds : List (Nat × FeedState)) (feed_id : Nat)
    (f : FeedState) (hnd : (feeds.map Prod.fst).Nodup) (hmem : (feed_id, f) ∈ feeds) :
    lookupFeed feeds feed_id = some f := by
  induction feeds with
  | nil => simp at hmem
  | cons q rest ih =>
    obtain ⟨qid, qf⟩ := q
    simp only [List.map_cons, List.nodup_cons] at hnd
    obtain ⟨hq, hnd'⟩ := hnd
    rcases List.mem_cons.mp hmem with heq | hmem'
    · injection heq with h1 h2
      subst h1
      subst h2
      simp [lookupFeed]
    · have hne : qid ≠ feed_id := by
        intro hq'
        subst hq'
        exact hq (List.mem_map.mpr ⟨(qid, f), hmem', rfl⟩)
      simp only [lookupFeed, if_neg hne]
      exact ih hnd' hmem'

theorem findUseFeedEarly_pending (l : List (Nat × FeedState)) :
    ∀ u, (∃ p ∈ l, p.2.early_reserve = [] ∧ p.2.early_stop = false) →
      findUseFeedEarly l u = none := by
  induction l with
  | nil => intro u h; simp at h
  | cons q rest ih =>
    obtain ⟨qid, qf⟩ := q
    intro u h
    obtain ⟨p, hp, hres, hstop⟩ := h
    simp only [findUseFeedEarly]
    rcases List.mem_cons.mp hp with heq | hmem
    · subst heq
      have hres' : qf.early_reserve = [] := hres
      have hstop' : qf.early_stop = false := hstop
      simp only [hres', hstop', Bool.false_eq_true, if_false]
    · cases hrr : qf.early_reserve with
      | nil =>
        by_cases hs : qf.early_stop = true
        · rw [if_pos hs]
          exact ih u ⟨p, hmem, hres, hstop⟩
        · rw [if_neg hs]
      | cons e es =>
        exact ih _ ⟨p, hmem, hres, hstop⟩

theorem findUseFeedEarly_total (l : List (Nat × FeedState)) :
    ∀ u, (∀ p ∈ l, p.2.early_reserve = [] → p.2.early_stop = true) →
      (u ≠ none ∨ ∃ p ∈ l, p.2.early_reserve ≠ []) →
      ∃ fid t, findUseFeedEarly l u = some (some (fid, t)) := by
  induction l with
  | nil =>
    intro u hstops hne
    rcases hne with hu | ⟨p, hp, _⟩
    · cases u with
      | none => exact absurd rfl hu
      | some v => exact ⟨v.1, v.2, by simp [findUseFeedEarly]⟩
    · simp at hp
  | cons q rest ih =>
    obtain ⟨qid, qf⟩ := q
    intro u hstops hne
    simp only [findUseFeedEarly]
    cases hrr : qf.early_reserve with
    | nil =>
      have hs : qf.early_stop = true := hstops (qid, qf) (List.mem_cons_self _ _) hrr
      rw [if_pos hs]
      apply ih u (fun p hp hres => hstops p (List.mem_cons_of_mem _ hp) hres)
      rcases hne with hu | ⟨p, hp, hne'⟩
      · exact Or.inl hu
      · rcases List.mem_cons.mp hp with heq | hmem
        · subst heq
          exact absurd hrr hne'
        · exact Or.inr ⟨p, hmem, hne'⟩
    | cons e es =>
      apply ih _ (fun p hp hres => hstops p (List.mem_cons_of_mem _ hp) hres)
      left
      cases u with
      | none => simp
      | some v =>
        obtain ⟨vid, vt⟩ := v
        by_cases hb : e.time > vt <;> simp [hb]

theorem findUseFeedEarly_bound (l : List (Nat × FeedState)) :
    ∀ u r, findUseFeedEarly l u = some r →
      (∀ v, u = some v → ∃ w, r = some w ∧ v.2 ≤ w.2) ∧
      (∀ p ∈ l, ∀ e, p.2.early_reserve.head? = some e → ∃ w, r = some w ∧ e.time ≤ w.2) := by
  induction l with
  | nil =>
    intro u r h
    simp only [findUseFeedEarly] at h
    injection h with h
    subst h
    exact ⟨fun v hv => ⟨v, hv, le_refl _⟩, by simp⟩
  | cons q rest ih =>
    obtain ⟨qid, qf⟩ := q
    intro u r h
    simp only [findUseFeedEarly] at h
    cases hrr : qf.early_reserve with
    | nil =>
      simp only [hrr] at h
      by_cases hs : qf.early_stop = true
      · rw [if_pos hs] at h
        obtain ⟨ih1, ih2⟩ := ih u r h
        refine ⟨ih1, ?_⟩
        intro p hp e hpe
        rcases List.mem_cons.mp hp with heq | hmem
        · subst heq
          rw [hrr] at hpe
          simp at hpe
        · exact ih2 p hmem e hpe
      · rw [if_neg hs] at h
        exact absurd h (by simp)
    | cons e es =>
      simp only [hrr] at h
      cases u with
      | none =>
        obtain ⟨ih1, ih2⟩ := ih _ r h
        constructor
        · intro v hv
          exact absurd hv (by simp)
        · intro p hp e' hpe
          rcases List.mem_cons.mp hp with heq | hmem
          · subst heq
            rw [hrr] at hpe
            simp only [List.head?_cons, Option.some.injEq] at hpe
            subst hpe
            exact ih1 (qid, e.time) rfl
          · exact ih2 p hmem e' hpe
      | some v =>
        obtain ⟨vid, vt⟩ := v
        by_cases hb : e.time > vt
        · rw [if_pos (decide_eq_true hb)] at h
          obtain ⟨ih1, ih2⟩ := ih _ r h
          constructor
          · intro v hv
            injection hv with hv
            subst hv
            obtain ⟨w, hw, hle⟩ := ih1 (qid, e.time) rfl
            exact ⟨w, hw, le_trans (le_of_lt hb) hle⟩
          · intro p hp e' hpe
            rcases List.mem_cons.mp hp with heq | hmem
            · subst heq
              rw [hrr] at hpe
              simp only [List.head?_cons, Option.some.injEq] at hpe
              subst hpe
              exact ih1 (qid, e.time) rfl
            · exact ih2 p hmem e' hpe
        · rw [if_neg (by simpa using hb)] at h
          obtain ⟨ih1, ih2⟩ := ih _ r h
          constructor
          · intro v hv
            injection hv with hv
            subst hv
            exact ih1 (vid, vt) rfl
          · intro p hp e' hpe
            rcases List.mem_cons.mp hp with heq | hmem
            · subst heq
              rw [hrr] at hpe
              simp only [List.head?_cons, Option.some.injEq] at hpe
              subst hpe
              obtain ⟨w, hw, hle⟩ := ih1 (vid, vt) rfl
              exact ⟨w, hw, le_trans (le_of_not_lt hb) hle⟩
            · exact ih2 p hmem e' hpe

theorem findUseFeedEarly_mem (l : List (Nat × FeedState)) :
    ∀ u fid t, findUseFeedEarly l u = some (some (fid, t)) →
      (∃ p ∈ l, p.1 = fid ∧ ∃ e es, p.2.early_reserve = e :: es ∧ e.time = t) ∨
      u = some (fid, t) := by
  induction l with
  | nil =>
    intro u fid t h
    simp only [findUseFeedEarly] at h
    injection h with h
    exact Or.inr h
  | cons q rest ih =>
    obtain ⟨qid, qf⟩ := q
    intro u fid t h
    simp only [findUseFeedEarly] at h
    cases hrr : qf.early_reserve with
    | nil =>
      simp only [hrr] at h
      by_cases hs : qf.early_stop = true
      · rw [if_pos hs] at h
        rcases ih u fid t h with ⟨p, hp, hrest⟩ | hu
        · exact Or.inl ⟨p, List.mem_cons_of_mem _ hp, hrest⟩
        · exact Or.inr hu
      · rw [if_neg hs] at h
        exact absurd h (by simp)
    | cons e es =>
      simp only [hrr] at h
      cases u with
      | none =>
        rcases ih _ fid t h with ⟨p, hp, hrest⟩ | hu
        · exact Or.inl ⟨p, List.mem_cons_of_mem _ hp, hrest⟩
        · injection hu with hu
          injection hu with h1 h2
          exact Or.inl ⟨(qid, qf), List.mem_cons_self _ _, h1, e, es, hrr, h2⟩
      | some v =>
        obtain ⟨vid, vt⟩ := v
        by_cases hb : e.time > vt
        · rw [if_pos (decide_eq_true hb)] at h
          rcases ih _ fid t h with ⟨p, hp, hrest⟩ | hu
          · exact Or.inl ⟨p, List.mem_cons_of_mem _ hp, hrest⟩
          · injection hu with hu
            injection hu with h1 h2
            exact Or.inl ⟨(qid, qf), List.mem_cons_self _ _, h1, e, es, hrr, h2⟩
        · rw [if_neg (by simpa using hb)] at h
          rcases ih _ fid t h with ⟨p, hp, hrest⟩ | hu
          · exact Or.inl ⟨p, List.mem_cons_of_mem _ hp, hrest⟩
          · exact Or.inr hu

theorem findUseFeedLate_pending (l : List (Nat × FeedState)) :
    ∀ u, (∃ p ∈ l, p.2.late_reserve = [] ∧ p.2.late_stop = false) →
      findUseFeedLate l u = none := by
  induction l with
  | nil => intro u h; simp at h
  | cons q rest ih =>
    obtain ⟨qid, qf⟩ := q
    intro u h
    obtain ⟨p, hp, hres, hstop⟩ := h
    simp only [findUseFeedLate]
    rcases List.mem_cons.mp hp with heq | hmem
    · subst heq
      have hres' : qf.late_reserve = [] := hres
      have hstop' : qf.late_stop = false := hstop
      simp only [hres', hstop', Bool.false_eq_true, if_false]
    · cases hrr : qf.late_reserve with
      | nil =>
        by_cases hs : qf.late_stop = true
        · rw [if_pos hs]
          exact ih u ⟨p, hmem, hres, hstop⟩
        · rw [if_neg hs]
      | cons e es =>
        exact ih _ ⟨p, hmem, hres, hstop⟩

theorem findUseFeedLate_total (l : List (Nat × FeedState)) :
    ∀ u, (∀ p ∈ l, p.2.late_reserve = [] → p.2.late_stop = true) →
      (u ≠ none ∨ ∃ p ∈ l, p.2.late_reserve ≠ []) →
      ∃ fid t, findUseFeedLate l u = some (some (fid, t)) := by
  induction l with
  | nil =>
    intro u hstops hne
    rcases hne with hu | ⟨p, hp, _⟩
    · cases u with
      | none => exact absurd rfl hu
      | some v => exact ⟨v.1, v.2, by simp [findUseFeedLate]⟩
    · simp at hp
  | cons q rest ih =>
    obtain ⟨qid, qf⟩ := q
    intro u hstops hne
    simp only [findUseFeedLate]
    cases hrr : qf.late_reserve with
    | nil =>
      have hs : qf.late_stop = true := hstops (qid, qf) (List.mem_cons_self _ _) hrr
      rw [if_pos hs]
      apply ih u (fun p hp hres => hstops p (List.mem_cons_of_mem _ hp) hres)
      rcases hne with hu | ⟨p, hp, hne'⟩
      · exact Or.inl hu
      · rcases List.mem_cons.mp hp with heq | hmem
        · subst heq
          exact absurd hrr hne'
        · exact Or.inr ⟨p, hmem, hne'⟩
    | cons e es =>
      apply ih _ (fun p hp hres => hstops p (List.mem_cons_of_mem _ hp) hres)
      left
      cases u with
      | none => simp
      | some v =>
        obtain ⟨vid, vt⟩ := v
        by_cases hb : e.time < vt <;> simp [hb]

theorem findUseFeedLate_bound (l : List (Nat × FeedState)) :
    ∀ u r, findUseFeedLate l u = some r →
      (∀ v, u = some v → ∃ w, r = some w ∧ w.2 ≤ v.2) ∧
      (∀ p ∈ l, ∀ e, p.2.late_reserve.head? = some e → ∃ w, r = some w ∧ w.2 ≤ e.time) := by
  induction l with
  | nil =>
    intro u r h
    simp only [findUseFeedLate] at h
    injection h with h
    subst h
    exact ⟨fun v hv => ⟨v, hv, le_refl _⟩, by simp⟩
  | cons q rest ih =>
    obtain ⟨qid, qf⟩ := q
    intro u r h
    simp only [findUseFeedLate] at h
    cases hrr : qf.late_reserve with
    | nil =>
      simp only [hrr] at h
      by_cases hs : qf.late_stop = true
      · rw [if_pos hs] at h
        obtain ⟨ih1, ih2⟩ := ih u r h
        refine ⟨ih1, ?_⟩
        intro p hp e hpe
        rcases List.mem_cons.mp hp with heq | hmem
        · subst heq
          rw [hrr] at hpe
          simp at hpe
        · exact ih2 p hmem e hpe
      · rw [if_neg hs] at h
        exact absurd h (by simp)
    | cons e es =>
      simp only [hrr] at h
      cases u with
      | none =>
        obtain ⟨ih1, ih2⟩ := ih _ r h
        constructor
        · intro v hv
          exact absurd hv (by simp)
        · intro p hp e' hpe
          rcases List.mem_cons.mp hp with heq | hmem
          · subst heq
            rw [hrr] at hpe
            simp only [List.head?_cons, Option.some.injEq] at hpe
            subst hpe
            exact ih1 (qid, e.time) rfl
          · exact ih2 p hmem e' hpe
      | some v =>
        obtain ⟨vid, vt⟩ := v
        by_cases hb : e.time < vt
        · rw [if_pos (decide_eq_true hb)] at h
          obtain ⟨ih1, ih2⟩ := ih _ r h
          constructor
          · intro v hv
            injection hv with hv
            subst hv
            obtain ⟨w, hw, hle⟩ := ih1 (qid, e.time) rfl
            exact ⟨w, hw, le_trans hle (le_of_lt hb)⟩
          · intro p hp e' hpe
            rcases List.mem_cons.mp hp with heq | hmem
            · subst heq
              rw [hrr] at hpe
              simp only [List.head?_cons, Option.some.injEq] at hpe
              subst hpe
              exact ih1 (qid, e.time) rfl
            · exact ih2 p hmem e' hpe
        · rw [if_neg (by simpa using hb)] at h
          obtain ⟨ih1, ih2⟩ := ih _ r h
          constructor
          · intro v hv
            injection hv with hv
            subst hv
            exact ih1 (vid, vt) rfl
          · intro p hp e' hpe
            rcases List.mem_cons.mp hp with heq | hmem
            · subst heq
              rw [hrr] at hpe
              simp only [List.head?_cons, Option.some.injEq] at hpe
              subst hpe
              obtain ⟨w, hw, hle⟩ := ih1 (vid, vt) rfl
              exact ⟨w, hw, le_trans hle (le_of_not_lt hb)⟩
            · exact ih2 p hmem e' hpe

theorem findUseFeedLate_mem (l : List (Nat × FeedState)) :
    ∀ u fid t, findUseFeedLate l u = some (some (fid, t)) →
      (∃ p ∈ l, p.1 = fid ∧ ∃ e es, p.2.late_reserve = e :: es ∧ e.time = t) ∨
      u = some (fid, t) := by
  induction l with
  | nil =>
    intro u fid t h
    simp only [findUseFeedLate] at h
    injection h with h
    exact Or.inr h
  | cons q rest ih =>
    obtain ⟨qid, qf⟩ := q
    intro u fid t h
    simp only [findUseFeedLate] at h
    cases hrr : qf.late_reserve with
    | nil =>
      simp only [hrr] at h
      by_cases hs : qf.late_stop = true
      · rw [if_pos hs] at h
        rcases ih u fid t h with ⟨p, hp, hrest⟩ | hu
        · exact Or.inl ⟨p, List.mem_cons_of_mem _ hp, hrest⟩
        · exact Or.inr hu
      · rw [if_neg hs] at h
        exact absurd h (by simp)
    | cons e es =>
      simp only [hrr] at h
      cases u with
      | none =>
        rcases ih _ fid t h with ⟨p, hp, hrest⟩ | hu
        · exact Or.inl ⟨p, List.mem_cons_of_mem _ hp, hrest⟩
        · injection hu with hu
          injection hu with h1 h2
          exact Or.inl ⟨(qid, qf), List.mem_cons_self _ _, h1, e, es, hrr, h2⟩
      | some v =>
        obtain ⟨vid, vt⟩ := v
        by_cases hb : e.time < vt
        · rw [if_pos (decide_eq_true hb)] at h
          rcases ih _ fid t h with ⟨p, hp, hrest⟩ | hu
          · exact Or.inl ⟨p, List.mem_cons_of_mem _ hp, hrest⟩
          · injection hu with hu
            injection hu with h1 h2
            exact Or.inl ⟨(qid, qf), List.mem_cons_self _ _, h1, e, es, hrr, h2⟩
        · rw [if_neg (by simpa using hb)] at h
          rcases ih _ fid t h with ⟨p, hp, hrest⟩ | hu
          · exact Or.inl ⟨p, List.mem_cons_of_mem _ hp, hrest⟩
          · exact Or.inr hu

/-- Claim C1: in shake phase 3, while used space is below the early target
the engine realizes next the front entry of an early reserve with the
greatest id (late side: least id) among all non-empty reserve fronts; it
selects nothing, realizing no entry in the pass, whenever some feed has an
empty reserve on that side with the stop flag false; and when every
empty-reserve feed is stopped and some reserve is non-empty, a selection
always exists.  Stated over the fill loop `fillEarly` / `fillLate` and its
feed scan `findUseFeedEarly` / `findUseFeedLate`. -/
theorem c1_fill_order (fuel : Nat) (feeds : List (Nat × FeedState))
    (early_sticky late_sticky : List EntryState) (used want : Rat) :
    (used < want → (∃ p ∈ feeds, p.2.early_reserve = [] ∧ p.2.early_stop = false) →
      fillEarly (fuel + 1) feeds early_sticky used want =
        some (feeds, early_sticky, [], false)) ∧
    (used < want → (∃ p ∈ feeds, p.2.late_reserve = [] ∧ p.2.late_stop = false) →
      fillLate (fuel + 1) feeds late_sticky used want =
        some (feeds, late_sticky, [], false)) ∧
    ((∀ p ∈ feeds, p.2.early_reserve = [] → p.2.early_stop = true) →
      (∃ p ∈ feeds, p.2.early_reserve ≠ []) →
      ∃ fid t, findUseFeedEarly feeds none = some (some (fid, t))) ∧
    ((∀ p ∈ feeds, p.2.late_reserve = [] → p.2.late_stop = true) →
      (∃ p ∈ feeds, p.2.late_reserve ≠ []) →
      ∃ fid t, findUseFeedLate feeds none = some (some (fid, t))) ∧
    (∀ fid t, findUseFeedEarly feeds none = some (some (fid, t)) →
      (∃ p ∈ feeds, p.1 = fid ∧ ∃ e es, p.2.early_reserve = e :: es ∧ e.time = t) ∧
      ∀ p ∈ feeds, ∀ e es, p.2.early_reserve = e :: es → e.time ≤ t) ∧
    (∀ fid t, findUseFeedLate feeds none = some (some (fid, t)) →
      (∃ p ∈ feeds, p.1 = fid ∧ ∃ e es, p.2.late_reserve = e :: es ∧ e.time = t) ∧
      ∀ p ∈ feeds, ∀ e es, p.2.late_reserve = e :: es → t ≤ e.time) ∧
    ((feeds.map Prod.fst).Nodup → used < want →
      ∀ fid t, findUseFeedEarly feeds none = some (some (fid, t)) →
      ∀ res, fillEarly (fuel + 1) feeds early_sticky used want = some res →
        ∃ r rem, res.2.2.1 = r :: rem ∧ r.entry.time = t) ∧
    ((feeds.map Prod.fst).Nodup → used < want →
      ∀ fid t, findUseFeedLate feeds none = some (some (fid, t)) →
      ∀ res, fillLate (fuel + 1) feeds late_sticky used want = some res →
        ∃ r rem, res.2.2.1 = r :: rem ∧ r.entry.time = t) := by
  refine ⟨?_, ?_, ?_, ?_, ?_, ?_, ?_, ?_⟩
  · intro hlt hpend
    simp only [fillEarly, if_pos hlt, findUseFeedEarly_pending feeds none hpend]
  · intro hlt hpend
    simp only [fillLate, if_pos hlt, findUseFeedLate_pending feeds none hpend]
  · intro hstops hne
    exact findUseFeedEarly_total feeds none hstops (Or.inr hne)
  · intro hstops hne
    exact findUseFeedLate_total feeds none hstops (Or.inr hne)
  · intro fid t hfind
    constructor
    · rcases findUseFeedEarly_mem feeds none fid t hfind with hm | hu
      · exact hm
      · exact absurd hu (by simp)
    · intro p hp e es hres
      obtain ⟨-, ih2⟩ := findUseFeedEarly_bound feeds none _ hfind
      obtain ⟨w, hw, hle⟩ := ih2 p hp e (by rw [hres]; rfl)
      injection hw with hw
      rw [← hw] at hle
      exact hle
  · intro fid t hfind
    constructor
    · rcases findUseFeedLate_mem feeds none fid t hfind with hm | hu
      · exact hm
      · exact absurd hu (by simp)
    · intro p hp e es hres
      obtain ⟨-, ih2⟩ := findUseFeedLate_bound feeds none _ hfind
      obtain ⟨w, hw, hle⟩ := ih2 p hp e (by rw [hres]; rfl)
      injection hw with hw
      rw [← hw] at hle
      exact hle
  · intro hnd hlt fid t hfind res hfill
    rcases findUseFeedEarly_mem feeds none fid t hfind with ⟨p, hp, hpfid, e, es, hres, het⟩ | hu
    · obtain ⟨pid, pf⟩ := p
      subst hpfid
      have hlk : lookupFeed feeds pid = some pf := lookupFeed_mem_nodup feeds pid pf hnd hp
      have hres' : pf.early_reserve = e :: es := hres
      have hfind' : findUseFeedEarly feeds none = some (some (pid, t)) := hfind
      have hpop : popFrontEarly feeds pid =
          some (updateFeed feeds pid { pf with early_reserve := es }, e) := by
        simp [popFrontEarly, hlk, hres']
      simp only [fillEarly, if_pos hlt, hfind', hpop] at hfill
      cases hgl : early_sticky.getLast? with
      | none =>
        simp only [hgl] at hfill
        split at hfill
        · exact absurd hfill (by simp)
        next f2 es2 realized sa heq =>
          injection hfill with hfill
          subst hfill
          exact ⟨EntryState.mk pid e, realized, rfl, het⟩
      | some f =>
        simp only [hgl] at hfill
        by_cases hfe : f.entry.time = e.time
        · rw [if_pos hfe] at hfill
          split at hfill
          · exact absurd hfill (by simp)
          next f2 es2 realized sa heq =>
            injection hfill with hfill
            subst hfill
            exact ⟨f, realized, rfl, by rw [hfe, het]⟩
        · rw [if_neg hfe] at hfill
          split at hfill
          · exact absurd hfill (by simp)
          next f2 es2 realized sa heq =>
            injection hfill with hfill
            subst hfill
            exact ⟨EntryState.mk pid e, realized, rfl, het⟩
    · exact absurd hu (by simp)
  · intro hnd hlt fid t hfind res hfill
    rcases findUseFeedLate_mem feeds none fid t hfind with ⟨p, hp, hpfid, e, es, hres, het⟩ | hu
    · obtain ⟨pid, pf⟩ := p
      subst hpfid
      have hlk : lookupFeed feeds pid = some pf := lookupFeed_mem_nodup feeds pid pf hnd hp
      have hres' : pf.late_reserve = e :: es := hres
      have hfind' : findUseFeedLate feeds none = some (some (pid, t)) := hfind
      have hpop : popFrontLate feeds pid =
          some (updateFeed feeds pid { pf with late_reserve := es }, e) := by
        simp [popFrontLate, hlk, hres']
      simp only [fillLate, if_pos hlt, hfind', hpop] at hfill
      cases hgl : late_sticky.head? with
      | none =>
        simp only [hgl] at hfill
        split at hfill
        · exact absurd hfill (by simp)
        next f2 es2 realized sa heq =>
          injection hfill with hfill
          subst hfill
          exact ⟨EntryState.mk pid e, realized, rfl, het⟩
      | some f =>
        simp only [hgl] at hfill
        by_cases hfe : f.entry.time = e.time
        · rw [if_pos hfe] at hfill
          split at hfill
          · exact absurd hfill (by simp)
          next f2 es2 realized sa heq =>
            injection hfill with hfill
            subst hfill
            exact ⟨f, realized, rfl, by rw [hfe, het]⟩
        · rw [if_neg hfe] at hfill
          split at hfill
          · exact absurd hfill (by simp)
          next f2 es2 realized sa heq =>
            injection hfill with hfill
            subst hfill
            exact ⟨EntryState.mk pid e, realized, rfl, het⟩
    · exact absurd hu (by simp)

/-- Witness for C1 at a concrete input: feed 1 has an empty, not-stopped
early reserve, so the early fill realizes nothing and leaves the feeds
untouched. -/
theorem c1_fill_order_witness :
    fillEarly 1 c1feeds [] 0 100 = some (c1feeds, [], [], false) :=
  (c1_fill_order 0 c1feeds [] [] 0 100).1 (by norm_num)
    ⟨(1, baseFeed), by decide, rfl, rfl⟩
